import Mathlib

/-!
Verification of the prediction-serving core of the portfolio-optimization
system: the LRU model cache, the hybrid stock-model registry
(`src/ml/api/services/model_registry.py`), the logarithmic price scaler
(`src/ml/processing/log_scaler.py`), and the single/batch prediction
pipelines (`src/ml/api/routes/stock_predict_v4.py`,
`src/ml/api/routes/lstm_improved.py`).

Python's `OrderedDict` used by `LRUCache` is embedded as an association
list of `(key, value)` pairs whose head is the oldest (least recently
used) entry; `move_to_end` is erase-then-append.  Loaded model/scaler
artifacts are opaque values; disk access is a parameter.
-/

namespace PortOpt

/-- Association-list lookup (Python `key in dict` / `dict[key]`). -/
def lookupKey {α : Type} (key : String) : List (String × α) → Option α
  | [] => none
  | (k, v) :: rest => if k = key then some v else lookupKey key rest

/-- Remove every pair with the given key (keys are unique in an
`OrderedDict`, so at most one occurrence exists in reachable states). -/
def eraseKey {α : Type} (key : String) : List (String × α) → List (String × α)
  | [] => []
  | (k, v) :: rest => if k = key then eraseKey key rest else (k, v) :: eraseKey key rest

/-- Embedding of `LRUCache` from `model_registry.py`: an `OrderedDict`
(oldest first) plus a fixed capacity. -/
structure LRUCache (α : Type) where
  capacity : Nat
  cache : List (String × α)

/-- `LRUCache.get`: on a hit, move the key to the most-recently-used end
and return the value; on a miss return `none` with no side effect. -/
def LRUCache.get {α : Type} (c : LRUCache α) (key : String) : Option α × LRUCache α :=
  match lookupKey key c.cache with
  | none => (none, c)
  | some v => (some v, { c with cache := eraseKey key c.cache ++ [(key, v)] })

/-- `LRUCache.put`: update-and-refresh an existing key; for a new key,
pop the single oldest entry first when the cache is at capacity. -/
def LRUCache.put {α : Type} (c : LRUCache α) (key : String) (v : α) : LRUCache α :=
  if (lookupKey key c.cache).isSome then
    { c with cache := eraseKey key c.cache ++ [(key, v)] }
  else if c.capacity ≤ c.cache.length then
    { c with cache := c.cache.drop 1 ++ [(key, v)] }
  else
    { c with cache := c.cache ++ [(key, v)] }

/-- `LRUCache.keys`. -/
def LRUCache.keys {α : Type} (c : LRUCache α) : List String :=
  c.cache.map Prod.fst

/-- `LRUCache.size`. -/
def LRUCache.size {α : Type} (c : LRUCache α) : Nat :=
  c.cache.length

/-- `LRUCache(capacity=n)`: a fresh empty cache. -/
def LRUCache.empty (α : Type) (capacity : Nat) : LRUCache α :=
  ⟨capacity, []⟩

theorem LRUCache.empty_capacity (α : Type) (cap : Nat) :
    (LRUCache.empty α cap).capacity = cap := rfl

theorem LRUCache.empty_cache (α : Type) (cap : Nat) :
    (LRUCache.empty α cap).cache = ([] : List (String × α)) := rfl

/-- Fold a list of `put`s over the cache (pairs are inserted in order). -/
def LRUCache.putList {α : Type} (c : LRUCache α) : List (String × α) → LRUCache α
  | [] => c
  | (k, v) :: rest => (c.put k v).putList rest

/-- The four cache operations, for stating the size invariant. -/
inductive CacheOp (α : Type) where
  | get (key : String)
  | put (key : String) (v : α)
  | keys
  | size

/-- Apply one operation (only its state effect; `keys`/`size` are reads). -/
def LRUCache.applyOp {α : Type} (c : LRUCache α) : CacheOp α → LRUCache α
  | CacheOp.get key => (c.get key).2
  | CacheOp.put key v => c.put key v
  | CacheOp.keys => c
  | CacheOp.size => c

/-- Run a sequence of cache operations. -/
def LRUCache.runOps {α : Type} (c : LRUCache α) : List (CacheOp α) → LRUCache α
  | [] => c
  | op :: rest => (c.applyOp op).runOps rest

section CacheLemmas

variable {α : Type}

theorem lookupKey_eraseKey_self (key : String) (l : List (String × α)) :
    lookupKey key (eraseKey key l) = none := by
  induction l with
  | nil => rfl
  | cons p rest ih =>
    obtain ⟨k, v⟩ := p
    by_cases h : k = key
    · simp [eraseKey, h, ih]
    · simp [eraseKey, lookupKey, h, ih]

theorem lookupKey_append_of_none {key : String} {l₁ : List (String × α)}
    (h : lookupKey key l₁ = none) (l₂ : List (String × α)) :
    lookupKey key (l₁ ++ l₂) = lookupKey key l₂ := by
  induction l₁ with
  | nil => rfl
  | cons p rest ih =>
    obtain ⟨k, v⟩ := p
    by_cases hk : k = key
    · simp [lookupKey, hk] at h
    · simp [lookupKey, hk] at h ⊢
      exact ih h

theorem eraseKey_length_le (key : String) (l : List (String × α)) :
    (eraseKey key l).length ≤ l.length := by
  induction l with
  | nil => simp [eraseKey]
  | cons p rest ih =>
    obtain ⟨k, v⟩ := p
    by_cases h : k = key
    · simp [eraseKey, h]
      omega
    · simp [eraseKey, h]
      omega

theorem eraseKey_length_lt (key : String) (l : List (String × α))
    (h : (lookupKey key l).isSome) : (eraseKey key l).length < l.length := by
  induction l with
  | nil => simp [lookupKey] at h
  | cons p rest ih =>
    obtain ⟨k, v⟩ := p
    by_cases hk : k = key
    · simp [eraseKey, hk]
      exact Nat.lt_succ_of_le (eraseKey_length_le key rest)
    · simp [lookupKey, hk] at h
      simp [eraseKey, hk]
      exact ih h

theorem lookupKey_eraseKey_ne {k2 key : String} (hne : k2 ≠ key) (l : List (String × α)) :
    lookupKey k2 (eraseKey key l) = lookupKey k2 l := by
  induction l with
  | nil => rfl
  | cons p rest ih =>
    obtain ⟨k, v⟩ := p
    by_cases hk : k = key
    · subst hk
      have hkk : k ≠ k2 := fun h => hne h.symm
      simp [eraseKey, lookupKey, hkk, ih]
    · by_cases hk2 : k = k2
      · subst hk2
        simp [eraseKey, hk, lookupKey]
      · simp [eraseKey, hk, lookupKey, hk2, ih]

theorem lookupKey_isSome_iff_mem {key : String} {l : List (String × α)} :
    (lookupKey key l).isSome ↔ key ∈ l.map Prod.fst := by
  induction l with
  | nil => simp [lookupKey]
  | cons p rest ih =>
    obtain ⟨k, v⟩ := p
    by_cases hk : k = key
    · simp [lookupKey, hk]
    · simp [lookupKey, hk, ih]
      intro h
      exact absurd h.symm hk

/-- `put` never grows the cache beyond `max capacity (size + 1)`;
together with capacity ≥ 1 this preserves `size ≤ capacity`. -/
theorem put_size_le {c : LRUCache α} (hcap : 1 ≤ c.capacity)
    (hsz : c.size ≤ c.capacity) (key : String) (v : α) :
    (c.put key v).size ≤ c.capacity := by
  unfold LRUCache.put LRUCache.size at *
  by_cases hmem : (lookupKey key c.cache).isSome
  · simp [hmem]
    have := eraseKey_length_lt key c.cache hmem
    omega
  · simp [hmem]
    by_cases hfull : c.capacity ≤ c.cache.length
    · simp [hfull]
      omega
    · simp [hfull]
      omega

theorem get_size_le {c : LRUCache α} (hsz : c.size ≤ c.capacity) (key : String) :
    ((c.get key).2).size ≤ c.capacity := by
  unfold LRUCache.get LRUCache.size at *
  cases h : lookupKey key c.cache with
  | none => simpa [h]
  | some v =>
    simp [h]
    have := eraseKey_length_lt key c.cache (by simp [h])
    omega

theorem applyOp_capacity (c : LRUCache α) (op : CacheOp α) :
    (c.applyOp op).capacity = c.capacity := by
  cases op with
  | get key =>
    unfold LRUCache.applyOp LRUCache.get
    cases h : lookupKey key c.cache <;> simp [h]
  | put key v =>
    unfold LRUCache.applyOp LRUCache.put
    by_cases hmem : (lookupKey key c.cache).isSome
    · simp [hmem]
    · by_cases hfull : c.capacity ≤ c.cache.length <;> simp [hmem, hfull]
  | keys => rfl
  | size => rfl

theorem applyOp_size_le {c : LRUCache α} (hcap : 1 ≤ c.capacity)
    (hsz : c.size ≤ c.capacity) (op : CacheOp α) :
    (c.applyOp op).size ≤ c.capacity := by
  cases op with
  | get key => exact get_size_le hsz key
  | put key v => exact put_size_le hcap hsz key v
  | keys => exact hsz
  | size => exact hsz

theorem runOps_size_le {c : LRUCache α} (hcap : 1 ≤ c.capacity)
    (hsz : c.size ≤ c.capacity) (ops : List (CacheOp α)) :
    (c.runOps ops).size ≤ c.capacity := by
  induction ops generalizing c with
  | nil => exact hsz
  | cons op rest ih =>
    have hcap2 : 1 ≤ (c.applyOp op).capacity := by
      rw [applyOp_capacity]; exact hcap
    have hsz2 : (c.applyOp op).size ≤ (c.applyOp op).capacity := by
      rw [applyOp_capacity]
      exact applyOp_size_le hcap hsz op
    have := ih hcap2 hsz2
    rw [applyOp_capacity] at this
    exact this

theorem runOps_capacity (c : LRUCache α) (ops : List (CacheOp α)) :
    (c.runOps ops).capacity = c.capacity := by
  induction ops generalizing c with
  | nil => rfl
  | cons op rest ih =>
    unfold LRUCache.runOps
    rw [ih, applyOp_capacity]

theorem lookupKey_eq_none_iff {key : String} {l : List (String × α)} :
    lookupKey key l = none ↔ key ∉ l.map Prod.fst := by
  rw [← lookupKey_isSome_iff_mem]
  cases lookupKey key l <;> simp

theorem eraseKey_eq_of_none {key : String} {l : List (String × α)}
    (h : lookupKey key l = none) : eraseKey key l = l := by
  induction l with
  | nil => rfl
  | cons p rest ih =>
    obtain ⟨k, v⟩ := p
    by_cases hk : k = key
    · simp [lookupKey, hk] at h
    · simp [lookupKey, hk] at h
      simp [eraseKey, hk, ih h]

theorem eraseKey_length_nodup {key : String} {l : List (String × α)} {v : α}
    (hnd : (l.map Prod.fst).Nodup) (h : lookupKey key l = some v) :
    (eraseKey key l).length + 1 = l.length := by
  induction l with
  | nil => simp [lookupKey] at h
  | cons p rest ih =>
    obtain ⟨k, w⟩ := p
    simp only [List.map_cons, List.nodup_cons] at hnd
    by_cases hk : k = key
    · subst hk
      have hrest : lookupKey k rest = none := lookupKey_eq_none_iff.mpr hnd.1
      simp [eraseKey, eraseKey_eq_of_none hrest]
    · simp [lookupKey, hk] at h
      simp [eraseKey, hk]
      exact ih hnd.2 h

theorem lookupKey_append_some {key : String} {l₁ : List (String × α)} {v : α}
    (h : lookupKey key l₁ = some v) (l₂ : List (String × α)) :
    lookupKey key (l₁ ++ l₂) = some v := by
  induction l₁ with
  | nil => simp [lookupKey] at h
  | cons p rest ih =>
    obtain ⟨k, w⟩ := p
    by_cases hk : k = key
    · simp [lookupKey, hk] at h ⊢
      exact h
    · simp [lookupKey, hk] at h ⊢
      exact ih h

theorem lookupKey_drop_none {key : String} {l : List (String × α)}
    (h : lookupKey key l = none) (n : Nat) :
    lookupKey key (l.drop n) = none := by
  induction l generalizing n with
  | nil => simp [lookupKey]
  | cons p rest ih =>
    obtain ⟨k, v⟩ := p
    by_cases hk : k = key
    · simp [lookupKey, hk] at h
    · simp [lookupKey, hk] at h
      cases n with
      | zero => simp [lookupKey, hk, h]
      | succ m => simpa using ih h m

theorem put_capacity (c : LRUCache α) (key : String) (v : α) :
    (c.put key v).capacity = c.capacity := by
  unfold LRUCache.put
  by_cases hmem : (lookupKey key c.cache).isSome
  · simp [hmem]
  · by_cases hfull : c.capacity ≤ c.cache.length <;> simp [hmem, hfull]

theorem put_new_not_full {c : LRUCache α} {key : String}
    (hnew : lookupKey key c.cache = none) (hroom : c.cache.length < c.capacity) (v : α) :
    (c.put key v).cache = c.cache ++ [(key, v)] := by
  unfold LRUCache.put
  simp [hnew, Nat.not_le_of_lt hroom]

theorem put_new_full {c : LRUCache α} {key : String}
    (hnew : lookupKey key c.cache = none) (hfull : c.capacity ≤ c.cache.length) (v : α) :
    (c.put key v).cache = c.cache.drop 1 ++ [(key, v)] := by
  unfold LRUCache.put
  simp [hnew, hfull]

theorem put_existing {c : LRUCache α} {key : String} {w : α}
    (hmem : lookupKey key c.cache = some w) (v : α) :
    (c.put key v).cache = eraseKey key c.cache ++ [(key, v)] := by
  unfold LRUCache.put
  simp [hmem]

theorem putList_append (c : LRUCache α) (a b : List (String × α)) :
    c.putList (a ++ b) = (c.putList a).putList b := by
  induction a generalizing c with
  | nil => rfl
  | cons p rest ih =>
    obtain ⟨k, v⟩ := p
    simp [LRUCache.putList, ih]

theorem putList_capacity (c : LRUCache α) (ps : List (String × α)) :
    (c.putList ps).capacity = c.capacity := by
  induction ps generalizing c with
  | nil => rfl
  | cons p rest ih =>
    obtain ⟨k, v⟩ := p
    simp [LRUCache.putList, ih, put_capacity]

theorem putList_fresh_not_full {c : LRUCache α} {ps : List (String × α)}
    (hfresh : ∀ q ∈ ps, lookupKey q.1 c.cache = none)
    (hnd : (ps.map Prod.fst).Nodup)
    (hroom : c.cache.length + ps.length ≤ c.capacity) :
    (c.putList ps).cache = c.cache ++ ps := by
  induction ps generalizing c with
  | nil => simp [LRUCache.putList]
  | cons p rest ih =>
    obtain ⟨k, v⟩ := p
    simp only [List.map_cons, List.nodup_cons] at hnd
    have hk : lookupKey k c.cache = none := hfresh (k, v) (by simp)
    have hroom1 : c.cache.length < c.capacity := by
      simp at hroom
      omega
    have hput : (c.put k v).cache = c.cache ++ [(k, v)] := put_new_not_full hk hroom1 v
    have hcap : (c.put k v).capacity = c.capacity := put_capacity c k v
    have hfresh2 : ∀ q ∈ rest, lookupKey q.1 (c.put k v).cache = none := by
      intro q hq
      rw [hput]
      have hq1 : lookupKey q.1 c.cache = none := hfresh q (by simp [hq])
      rw [lookupKey_append_of_none hq1]
      have hqk : ¬q.1 = k := by
        intro h
        exact hnd.1 (h ▸ List.mem_map_of_mem Prod.fst hq)
      simp [lookupKey, show ¬k = q.1 from fun h => hqk h.symm]
    have hroom2 : (c.put k v).cache.length + rest.length ≤ (c.put k v).capacity := by
      rw [hput, hcap]
      simp at hroom ⊢
      omega
    calc (c.putList ((k, v) :: rest)).cache
        = ((c.put k v).putList rest).cache := rfl
      _ = (c.put k v).cache ++ rest := ih hfresh2 hnd.2 hroom2
      _ = c.cache ++ (k, v) :: rest := by rw [hput]; simp

theorem drop_one_append {β : Type} {l : List β} (hne : l ≠ []) (m : List β) (n : Nat) :
    (l.drop 1 ++ m).drop n = (l ++ m).drop (n + 1) := by
  cases l with
  | nil => exact absurd rfl hne
  | cons x rest => simp

theorem putList_full {c : LRUCache α} {ps : List (String × α)}
    (hcap : 1 ≤ c.capacity) (hlen : c.cache.length = c.capacity)
    (hfresh : ∀ q ∈ ps, lookupKey q.1 c.cache = none)
    (hnd : (ps.map Prod.fst).Nodup) :
    (c.putList ps).cache = (c.cache ++ ps).drop ps.length := by
  induction ps generalizing c with
  | nil => simp [LRUCache.putList]
  | cons p rest ih =>
    obtain ⟨k, v⟩ := p
    simp only [List.map_cons, List.nodup_cons] at hnd
    have hk : lookupKey k c.cache = none := hfresh (k, v) (by simp)
    have hput : (c.put k v).cache = c.cache.drop 1 ++ [(k, v)] :=
      put_new_full hk (le_of_eq hlen.symm) v
    have hcap2 : (c.put k v).capacity = c.capacity := put_capacity c k v
    have hne : c.cache ≠ [] := by
      intro h
      rw [h] at hlen
      simp at hlen
      omega
    have hlen2 : (c.put k v).cache.length = (c.put k v).capacity := by
      rw [hput, hcap2]
      simp
      omega
    have hfresh2 : ∀ q ∈ rest, lookupKey q.1 (c.put k v).cache = none := by
      intro q hq
      rw [hput]
      have hq1 : lookupKey q.1 c.cache = none := hfresh q (by simp [hq])
      rw [lookupKey_append_of_none (lookupKey_drop_none hq1 1)]
      have hqk : ¬q.1 = k := by
        intro h
        exact hnd.1 (h ▸ List.mem_map_of_mem Prod.fst hq)
      simp [lookupKey, show ¬k = q.1 from fun h => hqk h.symm]
    have hcap3 : 1 ≤ (c.put k v).capacity := by rw [hcap2]; exact hcap
    calc (c.putList ((k, v) :: rest)).cache
        = ((c.put k v).putList rest).cache := rfl
      _ = ((c.put k v).cache ++ rest).drop rest.length := ih hcap3 hlen2 hfresh2 hnd.2
      _ = ((c.cache.drop 1 ++ [(k, v)]) ++ rest).drop rest.length := by rw [hput]
      _ = (c.cache.drop 1 ++ ((k, v) :: rest)).drop rest.length := by simp
      _ = (c.cache ++ ((k, v) :: rest)).drop (rest.length + 1) :=
            drop_one_append hne _ _
      _ = (c.cache ++ ((k, v) :: rest)).drop (((k, v) :: rest).length) := by simp

end CacheLemmas

/-! ## Stock model registry (`StockModelRegistry` in `model_registry.py`)

Keras models and joblib-loaded scalers are opaque: a model is a pair of
inference functions (plain, and with a stock id for the general model),
a scaler is a pair of transform functions over `ℚ`.  Disk access of
`_load_specific_model` is a parameter `disk : String → Option (Model × Scaler)`
(`none` = missing scaler file or failed deserialization). -/

/-- Opaque loaded Keras model: `predict(X)` for the stock-specific shape
and `predict([X_stock, X_price])` for the general model. -/
structure Model where
  predict : List ℚ → ℚ
  predictWithId : Nat → List ℚ → ℚ

/-- Opaque loaded scaler object as used by the v4 route: elementwise
`transform` over a price window and scalar `inverse_transform`. -/
structure Scaler where
  transform : List ℚ → List ℚ
  inverse_transform : ℚ → ℚ

/-- Mutable counter dict `self.stats` of `StockModelRegistry`. -/
structure RegistryStats where
  total_requests : Nat
  cache_hits : Nat
  cache_misses : Nat
  models_loaded : Nat
  specific_requests : Nat
  general_requests : Nat
deriving DecidableEq

/-- State of `StockModelRegistry`.  `specific_available` keeps only the
symbols (the mapped-to paths matter only through `disk`). -/
structure StockModelRegistry where
  specific_available : List String
  general_model : Option Model
  general_scalers : List (String × Scaler)
  general_stock_ids : List (String × Nat)
  cache : LRUCache (Model × Scaler)
  cache_size : Nat
  stats : RegistryStats

/-- The exceptions raised inside `load_model`.  The first three are
`ModelNotFoundError` in the source; `specificLoadFailed` stands for the
`FileNotFoundError` / deserialization errors of `_load_specific_model`. -/
inductive RegistryError where
  | modelNotFound (symbol : String) (available : List String)
  | generalModelUnavailable
  | generalScalerMissing (symbol : String)
  | specificLoadFailed (symbol : String)
deriving DecidableEq

/-- Which constructors are Python `ModelNotFoundError` instances. -/
def RegistryError.isModelNotFound : RegistryError → Bool
  | RegistryError.modelNotFound _ _ => true
  | RegistryError.generalModelUnavailable => true
  | RegistryError.generalScalerMissing _ => true
  | RegistryError.specificLoadFailed _ => false

/-- `str(e)` of a registry exception (quotes elided). -/
def RegistryError.message : RegistryError → String
  | RegistryError.modelNotFound s avail =>
      "No model found for symbol " ++ s ++ ". Available: " ++ toString avail
  | RegistryError.generalModelUnavailable => "General model not available"
  | RegistryError.generalScalerMissing s => "No scaler found for " ++ s ++ " in general model"
  | RegistryError.specificLoadFailed s => "Failed to load specific model for " ++ s

/-- Insertion into a ≤-sorted list of strings. -/
def insertSorted (x : String) : List String → List String
  | [] => [x]
  | y :: ys => if x ≤ y then x :: y :: ys else y :: insertSorted x ys

/-- Python `sorted` on a list of strings (insertion sort). -/
def sortStrings (l : List String) : List String :=
  l.foldr insertSorted []

/-- `get_available_stocks`: sorted list of symbols with specific models. -/
def StockModelRegistry.get_available_stocks (r : StockModelRegistry) : List String :=
  sortStrings r.specific_available

/-- `get_all_available_stocks`: `sorted(set(specific) | set(general_ids))`. -/
def StockModelRegistry.get_all_available_stocks (r : StockModelRegistry) : List String :=
  sortStrings ((r.specific_available ++ r.general_stock_ids.map Prod.fst).dedup)

/-- `get_model_type`: non-loading read-only routing lookup. -/
def StockModelRegistry.get_model_type (r : StockModelRegistry) (symbol : String) :
    Option String :=
  if symbol ∈ r.specific_available then some "stock_specific"
  else if (lookupKey symbol r.general_stock_ids).isSome then some "general"
  else none

/-- `_load_specific_model`: bump the specific counter, consult the LRU
cache under key `"specific_" ++ symbol` (hit: bump hits, recency moved by
`get`), otherwise bump misses and load from disk, inserting into the
cache and bumping `models_loaded` on success. -/
def StockModelRegistry.loadSpecificModel (disk : String → Option (Model × Scaler))
    (r : StockModelRegistry) (symbol : String) :
    Except RegistryError (Model × Scaler × String) × StockModelRegistry :=
  let r1 := { r with stats := { r.stats with specific_requests := r.stats.specific_requests + 1 } }
  let cacheKey := "specific_" ++ symbol
  match r1.cache.get cacheKey with
  | (some ms, cache1) =>
      (Except.ok (ms.1, ms.2, "stock_specific"),
       { r1 with cache := cache1,
                 stats := { r1.stats with cache_hits := r1.stats.cache_hits + 1 } })
  | (none, _) =>
      let r2 := { r1 with stats := { r1.stats with cache_misses := r1.stats.cache_misses + 1 } }
      match disk symbol with
      | none => (Except.error (RegistryError.specificLoadFailed symbol), r2)
      | some ms =>
          (Except.ok (ms.1, ms.2, "stock_specific"),
           { r2 with cache := r2.cache.put cacheKey ms,
                     stats := { r2.stats with models_loaded := r2.stats.models_loaded + 1 } })

/-- `_load_general_for_stock`: bump the general counter and return the
always-resident singleton with the per-symbol scaler slice. -/
def StockModelRegistry.loadGeneralForStock (r : StockModelRegistry) (symbol : String) :
    Except RegistryError (Model × Scaler × String) × StockModelRegistry :=
  let r1 := { r with stats := { r.stats with general_requests := r.stats.general_requests + 1 } }
  match r1.general_model with
  | none => (Except.error RegistryError.generalModelUnavailable, r1)
  | some m =>
      match lookupKey symbol r1.general_scalers with
      | none => (Except.error (RegistryError.generalScalerMissing symbol), r1)
      | some sc => (Except.ok (m, sc, "general"), r1)

/-- `load_model`: bump the total counter unconditionally, then route
specific-first, general-fallback, else `ModelNotFoundError` listing the
union of both indices. -/
def StockModelRegistry.load_model (disk : String → Option (Model × Scaler))
    (r : StockModelRegistry) (symbol : String) :
    Except RegistryError (Model × Scaler × String) × StockModelRegistry :=
  let r1 := { r with stats := { r.stats with total_requests := r.stats.total_requests + 1 } }
  if symbol ∈ r1.specific_available then
    r1.loadSpecificModel disk symbol
  else if (lookupKey symbol r1.general_stock_ids).isSome then
    r1.loadGeneralForStock symbol
  else
    (Except.error (RegistryError.modelNotFound symbol r1.get_all_available_stocks), r1)

/-- Round a rational to the nearest integer, ties to even (the `round`
builtin Python applies to the hit-rate percentage). -/
def roundHalfEven (q : ℚ) : ℤ :=
  if q - (⌊q⌋ : ℚ) < 1 / 2 then ⌊q⌋
  else if 1 / 2 < q - (⌊q⌋ : ℚ) then ⌊q⌋ + 1
  else if ⌊q⌋ % 2 = 0 then ⌊q⌋ else ⌊q⌋ + 1

/-- Python `round(x, 2)`. -/
def round2 (q : ℚ) : ℚ :=
  (roundHalfEven (q * 100) : ℚ) / 100

/-- The dict returned by `get_stats`. -/
structure StatsSnapshot where
  total_requests : Nat
  cache_hits : Nat
  cache_misses : Nat
  models_loaded : Nat
  specific_requests : Nat
  general_requests : Nat
  cache_hit_rate : ℚ
  cache_size : Nat
  cache_capacity : Nat
  specific_models : Nat
  general_model_stocks : Nat
  total_coverage : Nat
deriving DecidableEq

/-- `get_stats`: counters plus a hit rate in percent rounded to two
decimals (`hits / total * 100 if total > 0 else 0`). -/
def StockModelRegistry.get_stats (r : StockModelRegistry) : StatsSnapshot :=
  let hitRate : ℚ :=
    if 0 < r.stats.total_requests then
      (r.stats.cache_hits : ℚ) / (r.stats.total_requests : ℚ) * 100
    else 0
  { total_requests := r.stats.total_requests
    cache_hits := r.stats.cache_hits
    cache_misses := r.stats.cache_misses
    models_loaded := r.stats.models_loaded
    specific_requests := r.stats.specific_requests
    general_requests := r.stats.general_requests
    cache_hit_rate := round2 hitRate
    cache_size := r.cache.size
    cache_capacity := r.cache_size
    specific_models := r.specific_available.length
    general_model_stocks := r.general_stock_ids.length
    total_coverage := r.get_all_available_stocks.length }

/-- `clear_cache`: replace the cache with a fresh one of the same
capacity; nothing else is touched. -/
def StockModelRegistry.clear_cache (r : StockModelRegistry) : StockModelRegistry :=
  { r with cache := LRUCache.empty (Model × Scaler) r.cache_size }

/-- Run a sequence of `load_model` calls, threading the registry state. -/
def StockModelRegistry.runLoads (disk : String → Option (Model × Scaler))
    (r : StockModelRegistry) : List String → StockModelRegistry
  | [] => r
  | s :: rest => ((r.load_model disk s).2).runLoads disk rest

section SortLemmas

theorem mem_insertSorted {x y : String} {l : List String} :
    x ∈ insertSorted y l ↔ x = y ∨ x ∈ l := by
  induction l with
  | nil => simp [insertSorted]
  | cons z zs ih =>
    by_cases h : y ≤ z
    · simp [insertSorted, h]
    · simp [insertSorted, h, ih]
      tauto

theorem mem_sortStrings {x : String} {l : List String} :
    x ∈ sortStrings l ↔ x ∈ l := by
  induction l with
  | nil => simp [sortStrings]
  | cons z zs ih =>
    simp only [sortStrings, List.foldr] at ih ⊢
    rw [mem_insertSorted, ih]
    simp

theorem mem_get_all_available_stocks {r : StockModelRegistry} {x : String} :
    x ∈ r.get_all_available_stocks ↔
      x ∈ r.specific_available ∨ x ∈ r.general_stock_ids.map Prod.fst := by
  unfold StockModelRegistry.get_all_available_stocks
  rw [mem_sortStrings, List.mem_dedup, List.mem_append]

end SortLemmas

section MoreCacheLemmas

variable {α : Type}

theorem drop_append_of_le {β : Type} :
    ∀ {l₁ : List β} {n : Nat}, n ≤ l₁.length → ∀ l₂, (l₁ ++ l₂).drop n = l₁.drop n ++ l₂ := by
  intro l₁
  induction l₁ with
  | nil =>
    intro n hn l₂
    simp at hn
    simp [hn]
  | cons x rest ih =>
    intro n hn l₂
    cases n with
    | zero => simp
    | succ m =>
      simp at hn
      simpa using ih hn l₂

theorem cache_nonempty_of_lookup {c : LRUCache α} {k : String} {v : α}
    (hk : lookupKey k c.cache = some v) : 1 ≤ c.cache.length := by
  cases hc : c.cache with
  | nil => rw [hc] at hk; simp [lookupKey] at hk
  | cons p rest => simp

end MoreCacheLemmas

/-! ## Claim theorems: bounded cache (C2, C10) -/

/-- Claim C10: for every cache with capacity ≥ 1, `size()` never exceeds
the capacity under any sequence of `get`/`put`/`keys`/`size` operations;
`put` grows the cache by one exactly when the key is new and the cache is
below capacity, removes exactly one entry (net size unchanged) when the
key is new at capacity, leaves the size unchanged on an existing key, and
`get` never changes the size. -/
theorem cache_size_never_exceeds_capacity :
    (∀ (α : Type) (c : LRUCache α) (ops : List (CacheOp α)),
        1 ≤ c.capacity → c.size ≤ c.capacity →
        (c.runOps ops).size ≤ c.capacity)
    ∧ (∀ (α : Type) (c : LRUCache α) (key : String) (v : α),
        lookupKey key c.cache = none → c.cache.length < c.capacity →
        (c.put key v).size = c.size + 1)
    ∧ (∀ (α : Type) (c : LRUCache α) (key : String) (v : α),
        lookupKey key c.cache = none → c.cache.length = c.capacity → 1 ≤ c.capacity →
        (c.put key v).size = c.size)
    ∧ (∀ (α : Type) (c : LRUCache α) (key : String) (v w : α),
        (c.cache.map Prod.fst).Nodup → lookupKey key c.cache = some w →
        (c.put key v).size = c.size)
    ∧ (∀ (α : Type) (c : LRUCache α) (key : String),
        (c.cache.map Prod.fst).Nodup → ((c.get key).2).size = c.size) := by
  refine ⟨?_, ?_, ?_, ?_, ?_⟩
  · intro α c ops hcap hsz
    exact runOps_size_le hcap hsz ops
  · intro α c key v hnew hroom
    rw [LRUCache.size, LRUCache.size, put_new_not_full hnew hroom v]
    simp
  · intro α c key v hnew hlen hcap
    rw [LRUCache.size, LRUCache.size, put_new_full hnew (le_of_eq hlen.symm) v]
    simp
    omega
  · intro α c key v w hnd hmem
    rw [LRUCache.size, LRUCache.size, put_existing hmem v]
    have := eraseKey_length_nodup hnd hmem
    simp
    omega
  · intro α c key hnd
    unfold LRUCache.get LRUCache.size
    cases hk : lookupKey key c.cache with
    | none => simp [hk]
    | some v =>
      simp [hk]
      have := eraseKey_length_nodup hnd hk
      omega

/-- Witness for C10 at a concrete capacity-1 cache and operation list. -/
theorem cache_size_never_exceeds_capacity_witness :
    (1 ≤ (LRUCache.empty Nat 1).capacity ∧ (LRUCache.empty Nat 1).size ≤ 1)
    ∧ ((LRUCache.empty Nat 1).runOps
        [CacheOp.put "A" 1, CacheOp.put "B" 2, CacheOp.get "A"]).size ≤ 1 :=
  ⟨⟨by decide, by decide⟩,
   cache_size_never_exceeds_capacity.1 Nat (LRUCache.empty Nat 1)
     [CacheOp.put "A" 1, CacheOp.put "B" 2, CacheOp.get "A"] (by decide) (by decide)⟩

/-- Claim C2 (counterexample to the claim as stated): with capacity 2,
after `put A`, `put B`, `get A` (a hit refreshing `A`), inserting
capacity-many (two) new keys `C`, `D` does NOT preserve `A` — the second
insertion evicts it, contradicting "a get on an existing key followed by
inserting capacity new keys preserves that key". -/
theorem lru_refresh_capacity_inserts_counterexample :
    "A" ∉ (((((((LRUCache.empty Nat 2).put "A" 1).put "B" 2).get "A").2).put "C" 3).put "D" 4).keys := by
  decide

/-- Claim C2 (amended): for an LRU cache of capacity c ≥ 1: `put` on a
new key at capacity evicts exactly the least-recently-used (oldest)
entry before appending; `put` on an existing key updates the value and
moves it to the most-recently-used end; `get` on a hit returns the value,
moves the key to the most-recently-used end and preserves the key set;
inserting capacity+1 distinct fresh keys into an empty cache evicts
exactly the least-recently-used (first) one; a `get` on an existing key
followed by inserting at most capacity−1 new keys preserves that key
(the capacity-th insertion would evict it); and in the capacity-2
scenario put A, put B, get A, put C, the keys are exactly [A, C]. -/
theorem lru_cache_operations_amended :
    (∀ (α : Type) (c : LRUCache α) (key : String) (v : α),
        lookupKey key c.cache = none → c.cache.length = c.capacity → 1 ≤ c.capacity →
        (c.put key v).cache = c.cache.drop 1 ++ [(key, v)] ∧ (c.put key v).size = c.capacity)
    ∧ (∀ (α : Type) (c : LRUCache α) (key : String) (v w : α),
        lookupKey key c.cache = some w →
        (c.put key v).cache = eraseKey key c.cache ++ [(key, v)] ∧
        lookupKey key (c.put key v).cache = some v ∧
        ((c.put key v).keys).getLast? = some key)
    ∧ (∀ (α : Type) (c : LRUCache α) (key : String) (v : α),
        lookupKey key c.cache = some v →
        (c.get key).1 = some v ∧
        (((c.get key).2).keys).getLast? = some key ∧
        (∀ x, (lookupKey x ((c.get key).2).cache).isSome ↔ (lookupKey x c.cache).isSome))
    ∧ (∀ (α : Type) (cap : Nat) (ps : List (String × α)),
        1 ≤ cap → ps.length = cap + 1 → (ps.map Prod.fst).Nodup →
        ((LRUCache.empty α cap).putList ps).cache = ps.tail)
    ∧ (∀ (α : Type) (c : LRUCache α) (k : String) (v : α) (ns : List (String × α)),
        (c.cache.map Prod.fst).Nodup → c.cache.length = c.capacity →
        lookupKey k c.cache = some v →
        (∀ q ∈ ns, lookupKey q.1 c.cache = none) → (ns.map Prod.fst).Nodup →
        ns.length ≤ c.capacity - 1 →
        k ∈ (((c.get k).2).putList ns).keys)
    ∧ ((((((LRUCache.empty Nat 2).put "A" 1).put "B" 2).get "A").2.put "C" 3).keys
        = ["A", "C"]) := by
  refine ⟨?_, ?_, ?_, ?_, ?_, by decide⟩
  · intro α c key v hnew hlen hcap
    refine ⟨put_new_full hnew (le_of_eq hlen.symm) v, ?_⟩
    rw [LRUCache.size, put_new_full hnew (le_of_eq hlen.symm) v]
    simp
    omega
  · intro α c key v w hmem
    refine ⟨put_existing hmem v, ?_, ?_⟩
    · rw [put_existing hmem v,
        lookupKey_append_of_none (lookupKey_eraseKey_self key c.cache)]
      simp [lookupKey]
    · rw [LRUCache.keys, put_existing hmem v]
      simp
  · intro α c key v hmem
    have hget : c.get key =
        (some v, { c with cache := eraseKey key c.cache ++ [(key, v)] }) := by
      unfold LRUCache.get
      rw [hmem]
    refine ⟨by rw [hget], ?_, ?_⟩
    · rw [hget, LRUCache.keys]
      simp
    · intro x
      have hc2 : ((c.get key).2).cache = eraseKey key c.cache ++ [(key, v)] := by
        rw [hget]
      rw [hc2]
      by_cases hx : x = key
      · subst hx
        rw [lookupKey_append_of_none (lookupKey_eraseKey_self x c.cache)]
        simp [lookupKey, hmem]
      · have herase : lookupKey x (eraseKey key c.cache) = lookupKey x c.cache :=
          lookupKey_eraseKey_ne hx c.cache
        cases hxc : lookupKey x c.cache with
        | none =>
          have hres : lookupKey x (eraseKey key c.cache ++ [(key, v)]) = none := by
            rw [lookupKey_append_of_none (herase.trans hxc)]
            simp [lookupKey, show ¬key = x from fun h => hx h.symm]
          simp [hres]
        | some u =>
          have hres : lookupKey x (eraseKey key c.cache ++ [(key, v)]) = some u :=
            lookupKey_append_some (herase.trans hxc) _
          simp [hres]
  · intro α cap ps hcap hlen hnd
    have htake : (ps.take cap).length = cap := by
      rw [List.length_take, hlen]
      omega
    have hndsplit : ((ps.map Prod.fst).take cap ++ (ps.map Prod.fst).drop cap).Nodup := by
      rw [List.take_append_drop]
      exact hnd
    rw [List.nodup_append] at hndsplit
    have h1 : ((LRUCache.empty α cap).putList (ps.take cap)).cache = ps.take cap := by
      have := @putList_fresh_not_full α (LRUCache.empty α cap) (ps.take cap)
        (fun q _ => rfl)
        (by rw [List.map_take]; exact hndsplit.1)
        (by rw [LRUCache.empty_cache, LRUCache.empty_capacity]; simp [htake])
      simpa [LRUCache.empty_cache] using this
    have hcap1 : ((LRUCache.empty α cap).putList (ps.take cap)).capacity = cap := by
      rw [putList_capacity, LRUCache.empty_capacity]
    have hfresh2 : ∀ q ∈ ps.drop cap,
        lookupKey q.1 ((LRUCache.empty α cap).putList (ps.take cap)).cache = none := by
      intro q hq
      rw [h1, lookupKey_eq_none_iff, List.map_take]
      intro hmem2
      exact hndsplit.2.2 hmem2 (by rw [← List.map_drop]; exact List.mem_map_of_mem Prod.fst hq)
    have h2 := @putList_full α ((LRUCache.empty α cap).putList (ps.take cap))
      (ps.drop cap)
      (by rw [hcap1]; exact hcap)
      (by rw [h1, hcap1]; exact htake)
      hfresh2
      (by rw [List.map_drop]; exact hndsplit.2.1)
    calc ((LRUCache.empty α cap).putList ps).cache
        = (((LRUCache.empty α cap).putList (ps.take cap)).putList (ps.drop cap)).cache := by
          rw [← putList_append, List.take_append_drop]
      _ = (ps.take cap ++ ps.drop cap).drop ((ps.drop cap).length) := by rw [h2, h1]
      _ = ps.tail := by
          rw [List.take_append_drop, List.length_drop, hlen]
          simp [List.drop_one]
  · intro α c k v ns hnd hlen hk hfresh hndns hle
    have hget : (c.get k).2 = { c with cache := eraseKey k c.cache ++ [(k, v)] } := by
      unfold LRUCache.get
      rw [hk]
    have herase : (eraseKey k c.cache).length + 1 = c.cache.length :=
      eraseKey_length_nodup hnd hk
    have hpos : 1 ≤ c.cache.length := cache_nonempty_of_lookup hk
    have hfresh2 : ∀ q ∈ ns,
        lookupKey q.1 (eraseKey k c.cache ++ [(k, v)]) = none := by
      intro q hq
      have hq1 : lookupKey q.1 c.cache = none := hfresh q hq
      have hqk : q.1 ≠ k := by
        intro h
        rw [h, hk] at hq1
        exact Option.noConfusion hq1
      rw [lookupKey_append_of_none ((lookupKey_eraseKey_ne hqk c.cache).trans hq1)]
      simp [lookupKey, show ¬k = q.1 from fun h => hqk h.symm]
    have h2 := @putList_full α ((c.get k).2) ns
      (by rw [hget]; exact hlen ▸ hpos)
      (by rw [hget]; simp; omega)
      (by rw [hget]; exact hfresh2)
      hndns
    rw [LRUCache.keys, h2, hget]
    have hassoc : (eraseKey k c.cache ++ [(k, v)]) ++ ns
        = eraseKey k c.cache ++ ((k, v) :: ns) := by simp
    simp only [hassoc]
    rw [drop_append_of_le (by omega) ((k, v) :: ns)]
    simp

/-- Witness for the amended C2 at a concrete capacity-2 cache: a `get` on
`A` followed by one (= capacity − 1) fresh insert keeps `A` cached. -/
theorem lru_cache_operations_amended_witness :
    "A" ∈ (((((((LRUCache.empty Nat 2).put "A" 1).put "B" 2).get "A").2).putList
        [("C", 3)]).keys) :=
  lru_cache_operations_amended.2.2.2.2.1 Nat
    (((LRUCache.empty Nat 2).put "A" 1).put "B" 2) "A" 1 [("C", 3)]
    (by decide) (by decide) (by decide) (by decide) (by decide) (by decide)

/-! ## Registry routing and counter lemmas -/

section RegistryLemmas

/-- A cache hit on the specific path: result value and stats effect. -/
theorem load_model_spec_hit (disk : String → Option (Model × Scaler))
    {r : StockModelRegistry} {symbol : String} {m : Model} {sc : Scaler}
    (hmem : symbol ∈ r.specific_available)
    (hc : lookupKey ("specific_" ++ symbol) r.cache.cache = some (m, sc)) :
    (r.load_model disk symbol).1 = Except.ok (m, sc, "stock_specific")
    ∧ ((r.load_model disk symbol).2).stats =
        { r.stats with
            total_requests := r.stats.total_requests + 1
            specific_requests := r.stats.specific_requests + 1
            cache_hits := r.stats.cache_hits + 1 } := by
  have hget : r.cache.get ("specific_" ++ symbol) =
      (some (m, sc),
       { r.cache with
           cache := eraseKey ("specific_" ++ symbol) r.cache.cache
             ++ [("specific_" ++ symbol, (m, sc))] }) := by
    unfold LRUCache.get
    rw [hc]
  unfold StockModelRegistry.load_model StockModelRegistry.loadSpecificModel
  simp [hmem, hget]

/-- A cache miss with a successful disk load on the specific path. -/
theorem load_model_spec_miss_ok (disk : String → Option (Model × Scaler))
    {r : StockModelRegistry} {symbol : String} {m : Model} {sc : Scaler}
    (hmem : symbol ∈ r.specific_available)
    (hc : lookupKey ("specific_" ++ symbol) r.cache.cache = none)
    (hd : disk symbol = some (m, sc)) :
    (r.load_model disk symbol).1 = Except.ok (m, sc, "stock_specific")
    ∧ ((r.load_model disk symbol).2).stats =
        { r.stats with
            total_requests := r.stats.total_requests + 1
            specific_requests := r.stats.specific_requests + 1
            cache_misses := r.stats.cache_misses + 1
            models_loaded := r.stats.models_loaded + 1 }
    ∧ ((r.load_model disk symbol).2).cache =
        r.cache.put ("specific_" ++ symbol) (m, sc) := by
  have hget : r.cache.get ("specific_" ++ symbol) = (none, r.cache) := by
    unfold LRUCache.get
    rw [hc]
  unfold StockModelRegistry.load_model StockModelRegistry.loadSpecificModel
  simp [hmem, hget, hd]

/-- A cache miss with a failing disk load on the specific path. -/
theorem load_model_spec_miss_fail (disk : String → Option (Model × Scaler))
    {r : StockModelRegistry} {symbol : String}
    (hmem : symbol ∈ r.specific_available)
    (hc : lookupKey ("specific_" ++ symbol) r.cache.cache = none)
    (hd : disk symbol = none) :
    (r.load_model disk symbol).1 =
      Except.error (RegistryError.specificLoadFailed symbol) := by
  have hget : r.cache.get ("specific_" ++ symbol) = (none, r.cache) := by
    unfold LRUCache.get
    rw [hc]
  unfold StockModelRegistry.load_model StockModelRegistry.loadSpecificModel
  simp [hmem, hget, hd]

/-- Routing to the general singleton with its per-symbol scaler slice. -/
theorem load_model_general_ok (disk : String → Option (Model × Scaler))
    {r : StockModelRegistry} {symbol : String} {m : Model} {sc : Scaler}
    (hmem : symbol ∉ r.specific_available)
    (hids : (lookupKey symbol r.general_stock_ids).isSome)
    (hgm : r.general_model = some m)
    (hsc : lookupKey symbol r.general_scalers = some sc) :
    (r.load_model disk symbol).1 = Except.ok (m, sc, "general")
    ∧ ((r.load_model disk symbol).2).stats =
        { r.stats with
            total_requests := r.stats.total_requests + 1
            general_requests := r.stats.general_requests + 1 } := by
  unfold StockModelRegistry.load_model StockModelRegistry.loadGeneralForStock
  simp [hmem, hids, hgm, hsc]

/-- A symbol in neither index raises `ModelNotFoundError` listing the
union of both indices. -/
theorem load_model_neither (disk : String → Option (Model × Scaler))
    {r : StockModelRegistry} {symbol : String}
    (hmem : symbol ∉ r.specific_available)
    (hids : lookupKey symbol r.general_stock_ids = none) :
    (r.load_model disk symbol).1 =
      Except.error (RegistryError.modelNotFound symbol r.get_all_available_stocks)
    ∧ ((r.load_model disk symbol).2).stats =
        { r.stats with total_requests := r.stats.total_requests + 1 } := by
  unfold StockModelRegistry.load_model
  simp [hmem, hids, StockModelRegistry.get_all_available_stocks]

/-- `load_model` never touches the indices, the general artifacts or the
configured cache capacity. -/
theorem load_model_preserves (disk : String → Option (Model × Scaler))
    (r : StockModelRegistry) (symbol : String) :
    ((r.load_model disk symbol).2).specific_available = r.specific_available
    ∧ ((r.load_model disk symbol).2).general_stock_ids = r.general_stock_ids
    ∧ ((r.load_model disk symbol).2).general_model = r.general_model
    ∧ ((r.load_model disk symbol).2).general_scalers = r.general_scalers
    ∧ ((r.load_model disk symbol).2).cache_size = r.cache_size := by
  unfold StockModelRegistry.load_model StockModelRegistry.loadSpecificModel
    StockModelRegistry.loadGeneralForStock
  by_cases hmem : symbol ∈ r.specific_available
  · simp only [hmem, if_true]
    split
    · simp
    · split <;> simp
  · by_cases hids : (lookupKey symbol r.general_stock_ids).isSome
    · simp only [hmem, if_false, hids, if_true]
      split
      · simp
      · split <;> simp
    · simp [hmem, hids]

/-- Every `load_model` call increments the total-request counter by
exactly one. -/
theorem load_model_total (disk : String → Option (Model × Scaler))
    (r : StockModelRegistry) (symbol : String) :
    ((r.load_model disk symbol).2).stats.total_requests
      = r.stats.total_requests + 1 := by
  unfold StockModelRegistry.load_model StockModelRegistry.loadSpecificModel
    StockModelRegistry.loadGeneralForStock
  by_cases hmem : symbol ∈ r.specific_available
  · simp only [hmem, if_true]
    split
    · simp
    · split <;> simp
  · by_cases hids : (lookupKey symbol r.general_stock_ids).isSome
    · simp only [hmem, if_false, hids, if_true]
      split
      · simp
      · split <;> simp
    · simp [hmem, hids]

/-- Every `load_model` call increments `cache_hits + cache_misses` by one
exactly when the symbol is routed to the specific pool. -/
theorem load_model_hits_misses (disk : String → Option (Model × Scaler))
    (r : StockModelRegistry) (symbol : String) :
    ((r.load_model disk symbol).2).stats.cache_hits
      + ((r.load_model disk symbol).2).stats.cache_misses
      = r.stats.cache_hits + r.stats.cache_misses
        + (if symbol ∈ r.specific_available then 1 else 0) := by
  unfold StockModelRegistry.load_model StockModelRegistry.loadSpecificModel
    StockModelRegistry.loadGeneralForStock
  by_cases hmem : symbol ∈ r.specific_available
  · simp only [hmem, if_true]
    split
    · simp [hmem] <;> omega
    · split <;> (simp [hmem] <;> omega)
  · by_cases hids : (lookupKey symbol r.general_stock_ids).isSome
    · simp only [hmem, if_false, hids, if_true]
      split
      · simp [hmem] <;> omega
      · split <;> (simp [hmem] <;> omega)
    · simp [hmem, hids]

end RegistryLemmas

/-- Counters accumulated over a sequence of `load_model` calls. -/
theorem runLoads_counters (disk : String → Option (Model × Scaler)) :
    ∀ (syms : List String) (r : StockModelRegistry),
      ((r.runLoads disk syms).stats.total_requests
          = r.stats.total_requests + syms.length)
      ∧ ((r.runLoads disk syms).stats.cache_hits
            + (r.runLoads disk syms).stats.cache_misses
          = r.stats.cache_hits + r.stats.cache_misses
            + syms.countP (fun s => decide (s ∈ r.specific_available)))
      ∧ (r.runLoads disk syms).specific_available = r.specific_available := by
  intro syms
  induction syms with
  | nil =>
    intro r
    simp [StockModelRegistry.runLoads]
  | cons s rest ih =>
    intro r
    have hstep := ih ((r.load_model disk s).2)
    have htot := load_model_total disk r s
    have hhm := load_model_hits_misses disk r s
    have hpres := (load_model_preserves disk r s).1
    simp only [StockModelRegistry.runLoads]
    refine ⟨?_, ?_, ?_⟩
    · rw [hstep.1, htot]
      simp
      omega
    · rw [hstep.2.1]
      simp only [hpres]
      rw [hhm, List.countP_cons]
      by_cases hmem : s ∈ r.specific_available <;> simp [hmem] <;> omega
    · rw [hstep.2.2, hpres]

/-! ## Claim theorems: registry (C1, C4, C8, C9) -/

/-- Claim C1: `load_model` routes a symbol in the specific index to the
stock-specific artifact (from cache or disk) even when it is also in the
general index; a symbol only in the general index gets the resident
general singleton and that symbol's scaler slice; a symbol in neither
index raises `ModelNotFoundError` whose symbol list is exactly
`get_all_available_stocks()`, the union of both indices. -/
theorem load_model_routing :
    (∀ (disk : String → Option (Model × Scaler)) (r : StockModelRegistry)
        (symbol : String) (m : Model) (sc : Scaler),
        symbol ∈ r.specific_available →
        (lookupKey ("specific_" ++ symbol) r.cache.cache = some (m, sc) ∨
          (lookupKey ("specific_" ++ symbol) r.cache.cache = none ∧
            disk symbol = some (m, sc))) →
        (r.load_model disk symbol).1 = Except.ok (m, sc, "stock_specific"))
    ∧ (∀ (disk : String → Option (Model × Scaler)) (r : StockModelRegistry)
        (symbol : String) (m : Model) (sc : Scaler),
        symbol ∉ r.specific_available →
        (lookupKey symbol r.general_stock_ids).isSome →
        r.general_model = some m →
        lookupKey symbol r.general_scalers = some sc →
        (r.load_model disk symbol).1 = Except.ok (m, sc, "general"))
    ∧ (∀ (disk : String → Option (Model × Scaler)) (r : StockModelRegistry)
        (symbol : String),
        symbol ∉ r.specific_available →
        lookupKey symbol r.general_stock_ids = none →
        (r.load_model disk symbol).1 =
          Except.error (RegistryError.modelNotFound symbol r.get_all_available_stocks)
        ∧ (∀ x, x ∈ r.get_all_available_stocks ↔
            x ∈ r.specific_available ∨ x ∈ r.general_stock_ids.map Prod.fst)) := by
  refine ⟨?_, ?_, ?_⟩
  · intro disk r symbol m sc hmem hload
    rcases hload with hc | ⟨hc, hd⟩
    · exact (load_model_spec_hit disk hmem hc).1
    · exact (load_model_spec_miss_ok disk hmem hc hd).1
  · intro disk r symbol m sc hmem hids hgm hsc
    exact (load_model_general_ok disk hmem hids hgm hsc).1
  · intro disk r symbol hmem hids
    exact ⟨(load_model_neither disk hmem hids).1,
      fun x => mem_get_all_available_stocks⟩

/-- A minimal registry state for concrete witnesses. -/
def mkRegistry (specific : List String) (ids : List (String × Nat))
    (stats : RegistryStats) : StockModelRegistry :=
  { specific_available := specific
    general_model := none
    general_scalers := []
    general_stock_ids := ids
    cache := LRUCache.empty (Model × Scaler) 20
    cache_size := 20
    stats := stats }

/-- The all-zero counter dict a fresh registry starts with. -/
def freshStats : RegistryStats :=
  { total_requests := 0, cache_hits := 0, cache_misses := 0,
    models_loaded := 0, specific_requests := 0, general_requests := 0 }

/-- Witness for C1: a registry knowing only the general symbol `KCB` and
no specific or general artifacts rejects `ZZZ` listing `[KCB]`. -/
theorem load_model_routing_witness :
    ("ZZZ" ∉ (mkRegistry [] [("KCB", 0)] freshStats).specific_available
      ∧ lookupKey "ZZZ" (mkRegistry [] [("KCB", 0)] freshStats).general_stock_ids = none)
    ∧ ((mkRegistry [] [("KCB", 0)] freshStats).load_model (fun _ => none) "ZZZ").1 =
        Except.error (RegistryError.modelNotFound "ZZZ"
          (mkRegistry [] [("KCB", 0)] freshStats).get_all_available_stocks)
    ∧ (∀ x, x ∈ (mkRegistry [] [("KCB", 0)] freshStats).get_all_available_stocks ↔
        x ∈ (mkRegistry [] [("KCB", 0)] freshStats).specific_available
        ∨ x ∈ (mkRegistry [] [("KCB", 0)] freshStats).general_stock_ids.map Prod.fst) :=
  ⟨⟨by decide, by decide⟩,
   load_model_routing.2.2 (fun _ => none) (mkRegistry [] [("KCB", 0)] freshStats) "ZZZ"
     (by decide) (by decide)⟩

/-- Claim C4: starting from zeroed counters, after any sequence of N
`load_model` calls (any mix of specific hit/miss, general, not-found)
the stats snapshot reports `total_requests = N` and
`cache_hits + cache_misses` equal to the number of calls routed to the
specific pool. -/
theorem registry_counter_consistency
    (disk : String → Option (Model × Scaler)) (r : StockModelRegistry)
    (syms : List String)
    (h0 : r.stats.total_requests = 0)
    (h1 : r.stats.cache_hits = 0)
    (h2 : r.stats.cache_misses = 0) :
    ((r.runLoads disk syms).get_stats).total_requests = syms.length
    ∧ ((r.runLoads disk syms).get_stats).cache_hits
        + ((r.runLoads disk syms).get_stats).cache_misses
      = syms.countP (fun s => decide (s ∈ r.specific_available)) := by
  have h := runLoads_counters disk syms r
  constructor
  · show (r.runLoads disk syms).stats.total_requests = syms.length
    rw [h.1, h0]
    simp
  · show (r.runLoads disk syms).stats.cache_hits
        + (r.runLoads disk syms).stats.cache_misses = _
    rw [h.2.1, h1, h2]
    simp

/-- Witness for C4: two calls on a one-specific-symbol registry (one
specific miss, one not-found). -/
theorem registry_counter_consistency_witness :
    ((mkRegistry ["SCOM"] [] freshStats).stats.total_requests = 0
      ∧ (mkRegistry ["SCOM"] [] freshStats).stats.cache_hits = 0
      ∧ (mkRegistry ["SCOM"] [] freshStats).stats.cache_misses = 0)
    ∧ (((mkRegistry ["SCOM"] [] freshStats).runLoads (fun _ => none)
          ["SCOM", "ZZZ"]).get_stats).total_requests = 2
    ∧ (((mkRegistry ["SCOM"] [] freshStats).runLoads (fun _ => none)
          ["SCOM", "ZZZ"]).get_stats).cache_hits
        + (((mkRegistry ["SCOM"] [] freshStats).runLoads (fun _ => none)
          ["SCOM", "ZZZ"]).get_stats).cache_misses
      = ["SCOM", "ZZZ"].countP
          (fun s => decide (s ∈ (mkRegistry ["SCOM"] [] freshStats).specific_available)) := by
  have h := registry_counter_consistency (fun _ => none)
    (mkRegistry ["SCOM"] [] freshStats) ["SCOM", "ZZZ"] rfl rfl rfl
  exact ⟨⟨rfl, rfl, rfl⟩, h.1, h.2⟩

/-- Opaque placeholder artifacts for concrete witnesses. -/
def dummyModel : Model := ⟨fun _ => 0, fun _ _ => 0⟩

/-- Identity-like placeholder scaler for concrete witnesses. -/
def dummyScaler : Scaler := ⟨fun ps => ps, fun q => q⟩

/-- Claim C8 (counterexample to the claim as stated): with 1 hit out of
2 total requests, `get_stats` reports `cache_hit_rate = 50` (a rounded
percentage), not `hits / max(1, total) = 1/2`. -/
theorem get_stats_hit_rate_counterexample :
    ((mkRegistry [] [] ⟨2, 1, 1, 1, 2, 0⟩).get_stats).cache_hit_rate ≠
      ((mkRegistry [] [] ⟨2, 1, 1, 1, 2, 0⟩).stats.cache_hits : ℚ) /
        max 1 ((mkRegistry [] [] ⟨2, 1, 1, 1, 2, 0⟩).stats.total_requests : ℚ) := by
  norm_num [mkRegistry, StockModelRegistry.get_stats, round2, roundHalfEven]

/-- Claim C8 (amended): the stats snapshot reports the hit rate as a
percentage rounded to two decimals, `round(100 · hits / max(1, total), 2)`:
0 when there were no requests and `round(hits / total · 100, 2)`
otherwise. -/
theorem get_stats_hit_rate_amended (r : StockModelRegistry)
    (h : r.stats.cache_hits ≤ r.stats.total_requests) :
    (r.get_stats).cache_hit_rate =
      round2 (100 * ((r.stats.cache_hits : ℚ) / max 1 (r.stats.total_requests : ℚ))) := by
  have hproj : (r.get_stats).cache_hit_rate =
      round2 (if 0 < r.stats.total_requests then
        (r.stats.cache_hits : ℚ) / (r.stats.total_requests : ℚ) * 100 else 0) := rfl
  rw [hproj]
  by_cases h0 : 0 < r.stats.total_requests
  · rw [if_pos h0]
    congr 1
    have hmax : max 1 (r.stats.total_requests : ℚ) = (r.stats.total_requests : ℚ) := by
      apply max_eq_right
      exact_mod_cast h0
    rw [hmax]
    ring
  · rw [if_neg h0]
    have ht : r.stats.total_requests = 0 := by omega
    have hh : r.stats.cache_hits = 0 := by omega
    rw [ht, hh]
    norm_num

/-- Witness for the amended C8 at 1 hit out of 4 requests. -/
theorem get_stats_hit_rate_amended_witness :
    ((mkRegistry [] [] ⟨4, 1, 3, 3, 4, 0⟩).stats.cache_hits ≤
        (mkRegistry [] [] ⟨4, 1, 3, 3, 4, 0⟩).stats.total_requests)
    ∧ ((mkRegistry [] [] ⟨4, 1, 3, 3, 4, 0⟩).get_stats).cache_hit_rate =
        round2 (100 * (((mkRegistry [] [] ⟨4, 1, 3, 3, 4, 0⟩).stats.cache_hits : ℚ) /
          max 1 ((mkRegistry [] [] ⟨4, 1, 3, 3, 4, 0⟩).stats.total_requests : ℚ))) :=
  ⟨by decide, get_stats_hit_rate_amended (mkRegistry [] [] ⟨4, 1, 3, 3, 4, 0⟩) (by decide)⟩

/-- Claim C9 (counterexample to the claim as stated): `clear_cache` does
NOT reset the statistics counters — after clearing a registry whose
total-request counter is 5, the counter is still 5, not 0. -/
theorem clear_cache_stats_counterexample :
    ((mkRegistry [] [] ⟨5, 2, 3, 3, 5, 0⟩).clear_cache).stats.total_requests ≠ 0 := by
  decide

/-- Claim C9 (amended): `clear_cache` discards all cached entries (fresh
cache of the configured capacity) while leaving both indices, the
general singleton and its scalers, and the statistics counters untouched
(nothing in the registry resets the counters); a subsequent request for
a symbol with a specific model misses the cache and reloads from the
artifact loader, bumping the miss and loaded counters. -/
theorem clear_cache_amended (r : StockModelRegistry) :
    ((r.clear_cache).cache.cache = []
      ∧ (r.clear_cache).cache.capacity = r.cache_size
      ∧ (r.clear_cache).specific_available = r.specific_available
      ∧ (r.clear_cache).general_model = r.general_model
      ∧ (r.clear_cache).general_scalers = r.general_scalers
      ∧ (r.clear_cache).general_stock_ids = r.general_stock_ids
      ∧ (r.clear_cache).stats = r.stats)
    ∧ (∀ (disk : String → Option (Model × Scaler)) (symbol : String)
        (m : Model) (sc : Scaler),
        symbol ∈ r.specific_available → disk symbol = some (m, sc) →
        ((r.clear_cache).load_model disk symbol).1 = Except.ok (m, sc, "stock_specific")
        ∧ (((r.clear_cache).load_model disk symbol).2).stats.cache_misses
            = r.stats.cache_misses + 1
        ∧ (((r.clear_cache).load_model disk symbol).2).stats.models_loaded
            = r.stats.models_loaded + 1) := by
  constructor
  · exact ⟨rfl, rfl, rfl, rfl, rfl, rfl, rfl⟩
  · intro disk symbol m sc hmem hd
    have hmem2 : symbol ∈ (r.clear_cache).specific_available := hmem
    have hc : lookupKey ("specific_" ++ symbol) (r.clear_cache).cache.cache = none := rfl
    have h := load_model_spec_miss_ok disk hmem2 hc hd
    refine ⟨h.1, ?_, ?_⟩
    · rw [h.2.1]
      rfl
    · rw [h.2.1]
      rfl

/-- Witness for the amended C9: clearing a used registry and reloading
`SCOM` from disk. -/
theorem clear_cache_amended_witness :
    ("SCOM" ∈ (mkRegistry ["SCOM"] [] ⟨5, 2, 3, 3, 5, 0⟩).specific_available
      ∧ (fun (_ : String) => some (dummyModel, dummyScaler)) "SCOM"
          = some (dummyModel, dummyScaler))
    ∧ (((mkRegistry ["SCOM"] [] ⟨5, 2, 3, 3, 5, 0⟩).clear_cache).load_model
          (fun _ => some (dummyModel, dummyScaler)) "SCOM").1
        = Except.ok (dummyModel, dummyScaler, "stock_specific") :=
  ⟨⟨by decide, rfl⟩,
   ((clear_cache_amended (mkRegistry ["SCOM"] [] ⟨5, 2, 3, 3, 5, 0⟩)).2
     (fun _ => some (dummyModel, dummyScaler)) "SCOM" dummyModel dummyScaler
     (by decide) rfl).1⟩

/-! ## Prediction service (`make_prediction` in `stock_predict_v4.py`)

`HTTPException(status, detail)` is embedded as `APIError.http`;
`str(HTTPException(400, d))` is modelled as `"400: " ++ d`.  Note the
source wraps EVERY exception other than `ModelNotFoundError` — including
its own `HTTPException(400)` validation raises — into
`HTTPException(500, "Prediction failed: ...")`. -/

/-- HTTP-level error of the v4 route: status code plus detail string. -/
inductive APIError where
  | http (status : Nat) (detail : String)
deriving DecidableEq

/-- Response model of the v4 route (wall-clock time, timestamp and the
mape metadata field are dropped: no claim mentions them). -/
structure StockPredictionResponse where
  symbol : String
  prediction : ℚ
  horizon : String
  model_version : String
  cached : Bool
deriving DecidableEq

/-- `make_prediction`: look up `get_model_type` and the cached flag, call
`load_model` (first, before any price-series validation), then validate
`recent_prices`, scale the last 60 prices, run the model (with the stock
id for the general model), and inverse-transform.  `ModelNotFoundError`
surfaces as 404; everything else is wrapped as a 500 "Prediction failed"
error carrying the original message. -/
def make_prediction (disk : String → Option (Model × Scaler))
    (r : StockModelRegistry) (symbol : String) (horizon : String)
    (recent_prices : Option (List ℚ)) :
    Except APIError StockPredictionResponse × StockModelRegistry :=
  let model_type := r.get_model_type symbol
  let was_cached :=
    if model_type = some "stock_specific" then
      decide (("specific_" ++ symbol) ∈ r.cache.keys)
    else false
  match r.load_model disk symbol with
  | (Except.error e, r1) =>
      if e.isModelNotFound then
        (Except.error (APIError.http 404 e.message), r1)
      else
        (Except.error (APIError.http 500 ("Prediction failed: " ++ e.message)), r1)
  | (Except.ok (m, sc, mtype), r1) =>
      match recent_prices with
      | none =>
          (Except.error (APIError.http 500
            "Prediction failed: 400: recent_prices parameter is required (DB fetch not yet implemented)"),
           r1)
      | some ps =>
          if ps.length < 60 then
            (Except.error (APIError.http 500
              ("Prediction failed: 400: Need at least 60 recent prices, got "
                ++ toString ps.length)), r1)
          else
            let prices := ps.drop (ps.length - 60)
            let scaled := sc.transform prices
            if mtype = "stock_specific" then
              let prediction := sc.inverse_transform (m.predict scaled)
              (Except.ok { symbol := symbol, prediction := prediction,
                           horizon := horizon,
                           model_version := "v4_log_" ++ mtype,
                           cached := was_cached }, r1)
            else
              match lookupKey symbol r1.general_stock_ids with
              | none =>
                  (Except.error (APIError.http 500
                    ("Prediction failed: KeyError: " ++ symbol)), r1)
              | some sid =>
                  let prediction := sc.inverse_transform (m.predictWithId sid scaled)
                  (Except.ok { symbol := symbol, prediction := prediction,
                               horizon := horizon,
                               model_version := "v4_log_" ++ mtype,
                               cached := was_cached }, r1)

/-- Claim C7 (counterexample to the claim as stated): symbol `AAA` has a
loadable specific model; the caller supplies only 3 prices.  Were the
series validated first, `load_model` would not run (the total counter
would stay 0) and a typed insufficient-data error would surface; instead
the counter reads 1 and the error is the generic 500 "Prediction
failed" wrap of the length-validation message. -/
theorem make_prediction_validation_order_counterexample :
    (make_prediction (fun _ => some (dummyModel, dummyScaler))
        (mkRegistry ["AAA"] [] freshStats) "AAA" "10d" (some [1, 2, 3])).1
      = Except.error (APIError.http 500
          "Prediction failed: 400: Need at least 60 recent prices, got 3")
    ∧ ((make_prediction (fun _ => some (dummyModel, dummyScaler))
        (mkRegistry ["AAA"] [] freshStats) "AAA" "10d"
          (some [1, 2, 3])).2).stats.total_requests = 1 := by
  constructor
  · rfl
  · rfl

/-- Claim C7 (amended): `make_prediction` calls `Registry.loadModel`
before validating the caller-supplied price series.  A symbol in neither
index surfaces as the typed 404 `ModelNotFoundError`; a series shorter
than the required 60-price window is then rejected with an
insufficient-data message carrying the required and actual lengths, but
— like every non-`ModelNotFoundError` exception from the numeric/model
steps — it is wrapped into the generic 500 "Prediction failed" error
carrying the original message, and the load already counted. -/
theorem make_prediction_error_handling_amended :
    (∀ (disk : String → Option (Model × Scaler)) (r : StockModelRegistry)
        (symbol horizon : String) (rp : Option (List ℚ)),
        symbol ∉ r.specific_available →
        lookupKey symbol r.general_stock_ids = none →
        (make_prediction disk r symbol horizon rp).1 =
          Except.error (APIError.http 404
            (RegistryError.modelNotFound symbol r.get_all_available_stocks).message))
    ∧ (∀ (disk : String → Option (Model × Scaler)) (r : StockModelRegistry)
        (symbol horizon : String) (ps : List ℚ) (m : Model) (sc : Scaler),
        symbol ∈ r.specific_available →
        (lookupKey ("specific_" ++ symbol) r.cache.cache = some (m, sc) ∨
          (lookupKey ("specific_" ++ symbol) r.cache.cache = none ∧
            disk symbol = some (m, sc))) →
        ps.length < 60 →
        (make_prediction disk r symbol horizon (some ps)).1 =
          Except.error (APIError.http 500
            ("Prediction failed: 400: Need at least 60 recent prices, got "
              ++ toString ps.length))
        ∧ ((make_prediction disk r symbol horizon (some ps)).2).stats.total_requests
            = r.stats.total_requests + 1) := by
  constructor
  · intro disk r symbol horizon rp hmem hids
    have h := (load_model_neither disk hmem hids).1
    unfold make_prediction
    rcases hl : r.load_model disk symbol with ⟨res, r1⟩
    rw [hl] at h
    simp only at h
    rw [h]
    simp [RegistryError.isModelNotFound]
  · intro disk r symbol horizon ps m sc hmem hload hlen
    have hok : (r.load_model disk symbol).1 = Except.ok (m, sc, "stock_specific") := by
      rcases hload with hc | ⟨hc, hd⟩
      · exact (load_model_spec_hit disk hmem hc).1
      · exact (load_model_spec_miss_ok disk hmem hc hd).1
    have htot := load_model_total disk r symbol
    unfold make_prediction
    rcases hl : r.load_model disk symbol with ⟨res, r1⟩
    rw [hl] at hok htot
    simp only at hok htot
    rw [hok]
    exact ⟨by simp [hlen], by simp [hlen, htot]⟩

/-- Witness for the amended C7 at a concrete registry and 2-price series. -/
theorem make_prediction_error_handling_amended_witness :
    ("BBB" ∈ (mkRegistry ["BBB"] [] freshStats).specific_available
      ∧ lookupKey ("specific_" ++ "BBB")
          (mkRegistry ["BBB"] [] freshStats).cache.cache = none
      ∧ (fun (_ : String) => some (dummyModel, dummyScaler)) "BBB"
          = some (dummyModel, dummyScaler)
      ∧ ([5, 6] : List ℚ).length < 60)
    ∧ (make_prediction (fun _ => some (dummyModel, dummyScaler))
        (mkRegistry ["BBB"] [] freshStats) "BBB" "1d" (some [5, 6])).1
      = Except.error (APIError.http 500
          ("Prediction failed: 400: Need at least 60 recent prices, got "
            ++ toString ([5, 6] : List ℚ).length)) :=
  ⟨⟨by decide, rfl, rfl, by decide⟩,
   (make_prediction_error_handling_amended.2 (fun _ => some (dummyModel, dummyScaler))
     (mkRegistry ["BBB"] [] freshStats) "BBB" "1d" [5, 6] dummyModel dummyScaler
     (by decide) (Or.inr ⟨rfl, rfl⟩) (by decide)).1⟩

/-! ## Logarithmic price scaler (`log_scaler.py`)

Floating-point arithmetic is embedded over `ℝ`.  The sklearn
`MinMaxScaler` used inside `LogPriceScaler` keeps `scale_` and `min_`
derived from fitted data statistics: `scale_ = (fmax − fmin) /
handle_zeros(data_max − data_min)`, `min_ = fmin − data_min * scale_`;
`transform x = x * scale_ + min_` and `inverse_transform` undoes it.
`LogPriceScaler` takes logs before scaling and exponentiates after
unscaling. -/

/-- Fitted state of the inner sklearn `MinMaxScaler`. -/
structure MinMaxScalerR where
  feature_min : ℝ
  feature_max : ℝ
  data_min : ℝ
  data_max : ℝ

/-- sklearn `_handle_zeros_in_scale`: a zero range scales by 1. -/
noncomputable def handleZerosInScale (r : ℝ) : ℝ :=
  if r = 0 then 1 else r

noncomputable def MinMaxScalerR.scaleFactor (s : MinMaxScalerR) : ℝ :=
  (s.feature_max - s.feature_min) / handleZerosInScale (s.data_max - s.data_min)

noncomputable def MinMaxScalerR.minShift (s : MinMaxScalerR) : ℝ :=
  s.feature_min - s.data_min * s.scaleFactor

noncomputable def MinMaxScalerR.transform (s : MinMaxScalerR) (x : ℝ) : ℝ :=
  x * s.scaleFactor + s.minShift

noncomputable def MinMaxScalerR.inverse_transform (s : MinMaxScalerR) (y : ℝ) : ℝ :=
  (y - s.minShift) / s.scaleFactor

/-- Fitted state of `LogPriceScaler`: the inner MinMax scaler over log
prices, the recorded raw price extremes, and the fitted flag. -/
structure LogPriceScaler where
  scaler : MinMaxScalerR
  min_price : ℝ
  max_price : ℝ
  is_fitted : Bool

/-- `LogPriceScaler.transform` on a single price: reject unfitted states
and non-positive prices (`_validate_prices`; `ℝ` has no NaN/inf), else
min-max-scale the log price. -/
noncomputable def LogPriceScaler.transform (s : LogPriceScaler) (x : ℝ) :
    Except String ℝ :=
  if s.is_fitted = false then
    Except.error "Scaler must be fitted before transform. Call fit() first."
  else if x ≤ 0 then
    Except.error "Prices must be positive for log transformation."
  else
    Except.ok (s.scaler.transform (Real.log x))

/-- `LogPriceScaler.inverse_transform` on a single scaled value:
un-scale and exponentiate. -/
noncomputable def LogPriceScaler.inverse_transform (s : LogPriceScaler) (y : ℝ) :
    Except String ℝ :=
  if s.is_fitted = false then
    Except.error "Scaler must be fitted before inverse_transform."
  else
    Except.ok (Real.exp (s.scaler.inverse_transform y))

/-- `inverse_transform (transform x)` as one pipeline. -/
noncomputable def LogPriceScaler.roundTrip (s : LogPriceScaler) (x : ℝ) :
    Except String ℝ :=
  (s.transform x).bind fun y => s.inverse_transform y

theorem handleZerosInScale_ne_zero (r : ℝ) : handleZerosInScale r ≠ 0 := by
  unfold handleZerosInScale
  split
  · norm_num
  · assumption

theorem minmax_inverse_transform_transform (s : MinMaxScalerR)
    (hfr : s.feature_max ≠ s.feature_min) (x : ℝ) :
    s.inverse_transform (s.transform x) = x := by
  have hscale : s.scaleFactor ≠ 0 :=
    div_ne_zero (sub_ne_zero.mpr hfr) (handleZerosInScale_ne_zero _)
  unfold MinMaxScalerR.transform MinMaxScalerR.inverse_transform
  rw [add_sub_cancel_right, mul_div_cancel_right₀ _ hscale]

/-- Claim C3: on every fitted scaler state (with a non-degenerate
feature range, as in the default `(0, 1)`) and every strictly positive
price, the transform/inverse-transform round trip returns the price
exactly, hence within the 1e-6 relative-error bound
`|inverseTransform(transform(x)) − x| < 1e-6 · max(1, |x|)`. -/
theorem scaler_roundtrip (s : LogPriceScaler) (x : ℝ)
    (hf : s.is_fitted = true) (hx : 0 < x)
    (hfr : s.scaler.feature_max ≠ s.scaler.feature_min) :
    s.roundTrip x = Except.ok x
    ∧ ∀ z, s.roundTrip x = Except.ok z →
        |z - x| < 1 / 1000000 * max 1 |x| := by
  have h1 : s.transform x = Except.ok (s.scaler.transform (Real.log x)) := by
    unfold LogPriceScaler.transform
    rw [hf]
    simp [not_le.mpr hx]
  have h2 : s.roundTrip x = Except.ok x := by
    unfold LogPriceScaler.roundTrip
    rw [h1]
    unfold LogPriceScaler.inverse_transform
    rw [hf]
    simp [Except.bind, minmax_inverse_transform_transform s.scaler hfr, Real.exp_log hx]
  refine ⟨h2, ?_⟩
  intro z hz
  rw [h2] at hz
  have hzx : z = x := by
    cases hz
    rfl
  rw [hzx, sub_self, abs_zero]
  have hmax : (1 : ℝ) ≤ max 1 |x| := le_max_left 1 |x|
  nlinarith

/-- Concrete fitted scaler state for the C3 witness. -/
noncomputable def witnessLogScaler : LogPriceScaler :=
  { scaler := { feature_min := 0, feature_max := 1, data_min := 0, data_max := 1 }
    min_price := 1
    max_price := 2
    is_fitted := true }

/-- Witness for C3 at the concrete fitted state and price 2. -/
theorem scaler_roundtrip_witness :
    (witnessLogScaler.is_fitted = true ∧ (0 : ℝ) < 2
      ∧ witnessLogScaler.scaler.feature_max ≠ witnessLogScaler.scaler.feature_min)
    ∧ witnessLogScaler.roundTrip 2 = Except.ok 2 :=
  ⟨⟨rfl, by norm_num, by norm_num [witnessLogScaler]⟩,
   (scaler_roundtrip witnessLogScaler 2 rfl (by norm_num)
     (by norm_num [witnessLogScaler])).1⟩

/-! ## Improved LSTM route (`lstm_improved.py`)

`_compute_lstm_prediction_improved` catches every exception internally
and returns an `ErrorResponse` dict `{error: "prediction_failed",
detail}`, so its embedding is total.  Loaded artifacts are opaque
function records over `ℚ`; `load_stock_model`'s outcome (the
stock-specific `(model, scaler)` pair if both files load) and the
fallback general model are parameters. -/

/-- Opaque loaded model of the improved LSTM route. -/
structure LSTMModel where
  predict : List ℚ → ℚ

/-- Opaque scaler of the improved LSTM route (elementwise transform and
scalar inverse). -/
structure LSTMScaler where
  transform : ℚ → ℚ
  inverse_transform : ℚ → ℚ

/-- `LSTMPredictionRequest`: the `Day Price` column of `req.data`
(`none` models a missing column) plus symbol and horizon. -/
structure LSTMPredictionRequest where
  symbol : String
  dayPrices : Option (List ℚ)
  prediction_days : Nat

/-- `LSTMPredictionResponse` (timestamps and wall-clock time dropped). -/
structure LSTMPredictionResponse where
  symbol : String
  prediction : ℚ
  prediction_scaled : ℚ
  price_min : ℚ
  price_max : ℚ
  horizon : Nat
  model_type : String
  current_price : ℚ
  predicted_change : ℚ
  predicted_change_pct : ℚ
deriving DecidableEq

/-- Outcome dict of `_compute_lstm_prediction_improved`: a response
(the Bool records whether the negative-prediction warning was logged)
or the `ErrorResponse` dict. -/
inductive LSTMResult where
  | ok (resp : LSTMPredictionResponse) (clampWarned : Bool)
  | err (error : String) (detail : String)
deriving DecidableEq

def LSTMResult.isOk : LSTMResult → Bool
  | LSTMResult.ok _ _ => true
  | LSTMResult.err _ _ => false

def LSTMResult.predictionQ : LSTMResult → Option ℚ
  | LSTMResult.ok resp _ => some resp.prediction
  | LSTMResult.err _ _ => none

def LSTMResult.warned : LSTMResult → Bool
  | LSTMResult.ok _ w => w
  | LSTMResult.err _ _ => false

def LSTMResult.pctQ : LSTMResult → Option ℚ
  | LSTMResult.ok resp _ => some resp.predicted_change_pct
  | LSTMResult.err _ _ => none

/-- `np.min` over the `Day Price` column (0 on the unreachable empty
case). -/
def listMinQ : List ℚ → ℚ
  | [] => 0
  | x :: xs => xs.foldl min x

/-- `np.max` over the `Day Price` column. -/
def listMaxQ : List ℚ → ℚ
  | [] => 0
  | x :: xs => xs.foldl max x

/-- The request-specific `MinMaxScaler(feature_range=(0, 1))` fitted on
the request's own prices in the general fallback path. -/
def requestMinMaxScaler (ps : List ℚ) : LSTMScaler :=
  let lo := listMinQ ps
  let hi := listMaxQ ps
  let range := if hi - lo = 0 then 1 else hi - lo
  { transform := fun x => (x - lo) / range
    inverse_transform := fun y => y * range + lo }

/-- Steps of `_compute_lstm_prediction_improved` after model selection:
scale the prices, predict on the trailing `prediction_days` window,
inverse-transform, clamp negatives to 0 (the Bool in the result records
the warning log), and derive change fields with a divide-by-zero
guard for a zero last price. -/
def lstmFinish (model : LSTMModel) (scaler : LSTMScaler) (model_type : String)
    (req : LSTMPredictionRequest) (original_prices : List ℚ) : LSTMResult :=
  match original_prices.getLast? with
  | none => LSTMResult.err "prediction_failed" "index -1 is out of bounds"
  | some price_current =>
    let scaled := original_prices.map scaler.transform
    let sequence := scaled.drop (scaled.length - req.prediction_days)
    let prediction_scaled := model.predict sequence
    let prediction_inv := scaler.inverse_transform prediction_scaled
    let prediction_actual :=
      if prediction_inv < 0 then max 0 prediction_inv else prediction_inv
    let prediction_change := prediction_actual - price_current
    LSTMResult.ok
      { symbol := req.symbol
        prediction := prediction_actual
        prediction_scaled := prediction_scaled
        price_min := listMinQ original_prices
        price_max := listMaxQ original_prices
        horizon := req.prediction_days
        model_type := model_type
        current_price := price_current
        predicted_change := prediction_change
        predicted_change_pct :=
          if price_current ≠ 0 then prediction_change / price_current * 100 else 0 }
      (decide (prediction_inv < 0))

/-- `_compute_lstm_prediction_improved`: validate the column and length,
pick stock-specific artifacts or the general model with request-specific
scaling, then run the numeric steps. -/
def computeLSTMImproved (stockArtifacts : Option (LSTMModel × LSTMScaler))
    (generalModel : Option LSTMModel) (req : LSTMPredictionRequest) : LSTMResult :=
  match req.dayPrices with
  | none => LSTMResult.err "prediction_failed" "Input must include Day Price column"
  | some original_prices =>
    if original_prices.length < req.prediction_days then
      LSTMResult.err "prediction_failed"
        ("Require at least " ++ toString req.prediction_days ++ " samples for prediction")
    else
      match stockArtifacts with
      | some (ms, ss) => lstmFinish ms ss "stock_specific" req original_prices
      | none =>
          match generalModel with
          | none => LSTMResult.err "prediction_failed" "No trained model found"
          | some g =>
              lstmFinish g (requestMinMaxScaler original_prices)
                "general_with_stock_scaling" req original_prices

/-- The inverse-transformed (pre-clamp) model output of the
stock-specific path. -/
def lstmRawPrediction (model : LSTMModel) (scaler : LSTMScaler)
    (pd : Nat) (ps : List ℚ) : ℚ :=
  scaler.inverse_transform (model.predict
    ((ps.map scaler.transform).drop ((ps.map scaler.transform).length - pd)))

section LSTMLemmas

theorem lstmFinish_prediction {model : LSTMModel} {scaler : LSTMScaler}
    {mt : String} {req : LSTMPredictionRequest} {ps : List ℚ} {cur : ℚ}
    (h : ps.getLast? = some cur) :
    (lstmFinish model scaler mt req ps).predictionQ =
      some (if lstmRawPrediction model scaler req.prediction_days ps < 0 then 0
        else lstmRawPrediction model scaler req.prediction_days ps) := by
  unfold lstmFinish lstmRawPrediction
  rw [h]
  simp only [LSTMResult.predictionQ]
  by_cases hneg : scaler.inverse_transform (model.predict
      ((ps.map scaler.transform).drop (ps.length - req.prediction_days))) < 0
  · simp [hneg, max_eq_left (le_of_lt hneg)]
  · simp [hneg]

theorem lstmFinish_warned {model : LSTMModel} {scaler : LSTMScaler}
    {mt : String} {req : LSTMPredictionRequest} {ps : List ℚ} {cur : ℚ}
    (h : ps.getLast? = some cur) :
    (lstmFinish model scaler mt req ps).warned =
      decide (lstmRawPrediction model scaler req.prediction_days ps < 0) := by
  unfold lstmFinish lstmRawPrediction
  rw [h]
  simp [LSTMResult.warned]

theorem lstmFinish_pct_zero {model : LSTMModel} {scaler : LSTMScaler}
    {mt : String} {req : LSTMPredictionRequest} {ps : List ℚ}
    (h : ps.getLast? = some 0) :
    (lstmFinish model scaler mt req ps).pctQ = some 0 := by
  unfold lstmFinish
  rw [h]
  simp [LSTMResult.pctQ]

theorem lstmFinish_nonneg {model : LSTMModel} {scaler : LSTMScaler}
    {mt : String} {req : LSTMPredictionRequest} {ps : List ℚ}
    {resp : LSTMPredictionResponse} {w : Bool}
    (h : lstmFinish model scaler mt req ps = LSTMResult.ok resp w) :
    0 ≤ resp.prediction := by
  unfold lstmFinish at h
  cases hg : ps.getLast? with
  | none =>
    rw [hg] at h
    exact LSTMResult.noConfusion h
  | some cur =>
    rw [hg] at h
    simp only [LSTMResult.ok.injEq] at h
    rw [← h.1]
    simp only
    split
    · exact le_max_left 0 _
    · next hneg => exact not_lt.mp hneg

theorem compute_reduces {m : LSTMModel} {s : LSTMScaler} {gm : Option LSTMModel}
    {req : LSTMPredictionRequest} {ps : List ℚ}
    (hps : req.dayPrices = some ps) (hlen : req.prediction_days ≤ ps.length) :
    computeLSTMImproved (some (m, s)) gm req =
      lstmFinish m s "stock_specific" req ps := by
  unfold computeLSTMImproved
  rw [hps]
  simp [Nat.not_lt.mpr hlen]

end LSTMLemmas

/-! ## Claim theorems: prediction clamping and percent guard (C6) -/

/-- Claim C6: every completed improved-LSTM prediction is non-negative;
when the inverse-transformed model output is negative the returned
prediction is exactly 0 and the clamping is flagged (warning logged);
when the last observed price is exactly 0 the derived percentage change
is reported as 0 instead of raising; and the v4 pipeline's
`LogPriceScaler.inverse_transform` output is strictly positive (it is an
exponential), so the v4 route's returned prediction can never be
negative even though it has no explicit clamp. -/
theorem prediction_clamp_nonneg :
    (∀ (sa : Option (LSTMModel × LSTMScaler)) (gm : Option LSTMModel)
        (req : LSTMPredictionRequest) (resp : LSTMPredictionResponse) (w : Bool),
        computeLSTMImproved sa gm req = LSTMResult.ok resp w → 0 ≤ resp.prediction)
    ∧ (∀ (m : LSTMModel) (s : LSTMScaler) (gm : Option LSTMModel)
        (req : LSTMPredictionRequest) (ps : List ℚ),
        req.dayPrices = some ps → req.prediction_days ≤ ps.length → ps ≠ [] →
        lstmRawPrediction m s req.prediction_days ps < 0 →
        (computeLSTMImproved (some (m, s)) gm req).predictionQ = some 0
        ∧ (computeLSTMImproved (some (m, s)) gm req).warned = true)
    ∧ (∀ (m : LSTMModel) (s : LSTMScaler) (gm : Option LSTMModel)
        (req : LSTMPredictionRequest) (ps : List ℚ),
        req.dayPrices = some ps → req.prediction_days ≤ ps.length →
        ps.getLast? = some 0 →
        (computeLSTMImproved (some (m, s)) gm req).pctQ = some 0)
    ∧ (∀ (s : LogPriceScaler) (y z : ℝ),
        s.inverse_transform y = Except.ok z → 0 < z) := by
  refine ⟨?_, ?_, ?_, ?_⟩
  · intro sa gm req resp w h
    unfold computeLSTMImproved at h
    split at h
    · exact LSTMResult.noConfusion h
    · split at h
      · exact LSTMResult.noConfusion h
      · split at h
        · exact lstmFinish_nonneg h
        · split at h
          · exact LSTMResult.noConfusion h
          · exact lstmFinish_nonneg h
  · intro m s gm req ps hps hlen hne hraw
    obtain ⟨cur, hg⟩ := Option.isSome_iff_exists.mp (List.getLast?_isSome.mpr hne)
    rw [compute_reduces hps hlen]
    constructor
    · rw [lstmFinish_prediction hg]
      simp [hraw]
    · rw [lstmFinish_warned hg]
      simp [hraw]
  · intro m s gm req ps hps hlen hg
    rw [compute_reduces hps hlen]
    exact lstmFinish_pct_zero hg
  · intro s y z h
    unfold LogPriceScaler.inverse_transform at h
    split at h
    · exact Except.noConfusion h
    · simp only [Except.ok.injEq] at h
      rw [← h]
      exact Real.exp_pos _

/-- Witness for C6: a model always predicting −5 through an identity
scaler yields prediction 0 with the clamp flagged. -/
theorem prediction_clamp_nonneg_witness :
    ((⟨"SCOM", some [1, 2, 3], 2⟩ : LSTMPredictionRequest).dayPrices = some [1, 2, 3]
      ∧ (⟨"SCOM", some [1, 2, 3], 2⟩ : LSTMPredictionRequest).prediction_days
          ≤ ([1, 2, 3] : List ℚ).length
      ∧ ([1, 2, 3] : List ℚ) ≠ []
      ∧ lstmRawPrediction ⟨fun _ => -5⟩ ⟨fun x => x, fun y => y⟩ 2 [1, 2, 3] < 0)
    ∧ (computeLSTMImproved (some (⟨fun _ => -5⟩, ⟨fun x => x, fun y => y⟩)) none
        ⟨"SCOM", some [1, 2, 3], 2⟩).predictionQ = some 0 :=
  ⟨⟨rfl, by decide, by decide, by decide⟩,
   (prediction_clamp_nonneg.2.1 ⟨fun _ => -5⟩ ⟨fun x => x, fun y => y⟩ none
     ⟨"SCOM", some [1, 2, 3], 2⟩ [1, 2, 3] rfl (by decide) (by decide) (by decide)).1⟩

/-! ## Batch endpoints (C5)

`asyncio.gather(..., return_exceptions=True)` returns results in task
(input) order; the per-request computation is abstracted as an outcome
function, which is faithful because each gathered item depends only on
its own request.  The improved-LSTM batch appends each outcome dict to
`results` in gathered order; the v4 batch instead separates successes
(`predictions`) from failures (`errors`, each `{symbol, error}`). -/

/-- `BatchLSTMResponse` of the improved LSTM route. -/
structure BatchLSTMResponse where
  results : List LSTMResult
  total : Nat
  successful : Nat
  failed : Nat
deriving DecidableEq

/-- `predict_lstm_batch_improved`: fan-out over the requests, collect
results in input order, count dicts with a `prediction` key as
successes. -/
def predict_lstm_batch_improved (run : LSTMPredictionRequest → LSTMResult)
    (stocks : List LSTMPredictionRequest) : BatchLSTMResponse :=
  let results := stocks.map run
  { results := results
    total := stocks.length
    successful := results.countP LSTMResult.isOk
    failed := results.countP (fun x => !x.isOk) }

/-- The result-separating loop of v4 `predict_batch`: successes keep
input order in `predictions`; a failure contributes `(symbol, detail)`
to the separate `errors` list instead of occupying its slot. -/
def splitBatchResults :
    List (String × Except APIError StockPredictionResponse) →
      List StockPredictionResponse × List (String × String)
  | [] => ([], [])
  | (sym, Except.error (APIError.http _ d)) :: rest =>
      ((splitBatchResults rest).1, (sym, d) :: (splitBatchResults rest).2)
  | (_, Except.ok p) :: rest =>
      (p :: (splitBatchResults rest).1, (splitBatchResults rest).2)

/-- v4 `predict_batch` over per-symbol outcomes. -/
def predict_batch (F : String → Except APIError StockPredictionResponse)
    (symbols : List String) :
    List StockPredictionResponse × List (String × String) :=
  splitBatchResults (symbols.map fun s => (s, F s))

theorem countP_not_add {α : Type} (p : α → Bool) (l : List α) :
    l.countP p + l.countP (fun a => !(p a)) = l.length := by
  induction l with
  | nil => simp
  | cons x xs ih =>
    rw [List.countP_cons, List.countP_cons]
    cases hp : p x <;> simp [hp] <;> omega

/-- Per-symbol outcome function for the C5 counterexample. -/
def c5F : String → Except APIError StockPredictionResponse :=
  fun s =>
    if s = "BAD" then Except.error (APIError.http 404 "No model found for symbol BAD")
    else Except.ok ⟨"GOOD", 1, "10d", "v4_log_stock_specific", false⟩

/-- Claim C5 (counterexample to the claim as stated): in the v4 batch
endpoint a failing symbol's error is NOT captured in its slot of the
result list — for input `[BAD, GOOD]` the predictions list is just
`[GOOD-response]` (slot 0 holds GOOD's success, not BAD's error record),
and the failure sits in the separate errors list. -/
theorem batch_error_slot_counterexample :
    (predict_batch c5F ["BAD", "GOOD"]).1
      = [⟨"GOOD", 1, "10d", "v4_log_stock_specific", false⟩]
    ∧ (predict_batch c5F ["BAD", "GOOD"]).2
      = [("BAD", "No model found for symbol BAD")] := by
  constructor <;> rfl

/-- Requests for the 9-success/1-failure scenario (failing slot 3). -/
def c5Stocks : List LSTMPredictionRequest :=
  [⟨"S0", some [1], 1⟩, ⟨"S1", some [1], 1⟩, ⟨"S2", some [1], 1⟩,
   ⟨"BAD", some [1], 1⟩, ⟨"S4", some [1], 1⟩, ⟨"S5", some [1], 1⟩,
   ⟨"S6", some [1], 1⟩, ⟨"S7", some [1], 1⟩, ⟨"S8", some [1], 1⟩,
   ⟨"S9", some [1], 1⟩]

/-- Outcome function failing exactly on symbol `BAD`. -/
def c5Run : LSTMPredictionRequest → LSTMResult :=
  fun req =>
    if req.symbol = "BAD" then LSTMResult.err "prediction_failed" "boom"
    else LSTMResult.ok ⟨req.symbol, 1, 1, 1, 1, 1, "stock_specific", 1, 0, 0⟩ false

/-- Claim C5 (amended): in the improved-LSTM batch endpoint, slot i of
the result list is exactly the outcome of request i (order preserved,
slot content independent of sibling requests, failures isolated as
in-slot error records carrying kind and message but no symbol field);
success and failure counts partition the batch.  In the v4 batch
endpoint, failures are likewise isolated but collected into a separate
errors list as (symbol, detail) pairs while the predictions list holds
exactly the successes in input order.  A 10-request improved-LSTM batch
whose slot-3 request always fails returns 9 successes, 1 failure, and
the error record at its original position 3. -/
theorem batch_isolation_order_amended :
    (∀ (run : LSTMPredictionRequest → LSTMResult)
        (stocks : List LSTMPredictionRequest) (i : Nat),
        ((predict_lstm_batch_improved run stocks).results).get? i
          = (stocks.get? i).map run)
    ∧ (∀ (run : LSTMPredictionRequest → LSTMResult)
        (stocks : List LSTMPredictionRequest),
        (predict_lstm_batch_improved run stocks).total = stocks.length
        ∧ (predict_lstm_batch_improved run stocks).successful
            = stocks.countP (fun st => (run st).isOk)
        ∧ (predict_lstm_batch_improved run stocks).failed
            = stocks.countP (fun st => !(run st).isOk)
        ∧ (predict_lstm_batch_improved run stocks).successful
            + (predict_lstm_batch_improved run stocks).failed = stocks.length)
    ∧ (∀ (F : String → Except APIError StockPredictionResponse)
        (symbols : List String),
        (predict_batch F symbols).1
          = symbols.filterMap (fun s => (F s).toOption)
        ∧ (predict_batch F symbols).2
          = symbols.filterMap (fun s =>
              match F s with
              | Except.error (APIError.http _ d) => some (s, d)
              | Except.ok _ => none))
    ∧ ((predict_lstm_batch_improved c5Run c5Stocks).successful = 9
        ∧ (predict_lstm_batch_improved c5Run c5Stocks).failed = 1
        ∧ ((predict_lstm_batch_improved c5Run c5Stocks).results).get? 3
            = some (LSTMResult.err "prediction_failed" "boom")) := by
  refine ⟨?_, ?_, ?_, by decide⟩
  · intro run stocks i
    simp [predict_lstm_batch_improved, List.get?_map]
  · intro run stocks
    refine ⟨rfl, ?_, ?_, ?_⟩
    · simp [predict_lstm_batch_improved, List.countP_map]
      rfl
    · simp [predict_lstm_batch_improved, List.countP_map]
      rfl
    · show (stocks.map run).countP LSTMResult.isOk
          + (stocks.map run).countP (fun x => !x.isOk) = stocks.length
      rw [countP_not_add]
      simp
  · intro F symbols
    induction symbols with
    | nil => exact ⟨rfl, rfl⟩
    | cons s rest ih =>
      have hcons : predict_batch F (s :: rest)
          = splitBatchResults ((s, F s) :: rest.map fun t => (t, F t)) := rfl
      rcases hF : F s with e | p
      · rcases e with ⟨st, d⟩
        constructor
        · rw [hcons, hF]
          simp [splitBatchResults, List.filterMap_cons, hF, Except.toOption]
          exact ih.1
        · rw [hcons, hF]
          simp [splitBatchResults, List.filterMap_cons, hF]
          exact ih.2
      · constructor
        · rw [hcons, hF]
          simp [splitBatchResults, List.filterMap_cons, hF, Except.toOption]
          exact ih.1
        · rw [hcons, hF]
          simp [splitBatchResults, List.filterMap_cons, hF]
          exact ih.2

end PortOpt
